import Mathlib

/-!
# Verification of the comments-plugin common services

Shallow embedding of `src/server/services/common.js` (a Strapi comments
plugin): the pagination/sort compiler, the relation codec, the moderation
filter, the flat and hierarchical comment queries, and the cascading field
updater, together with theorems checking the specification's claims.

JavaScript numbers reachable in this code are integers, `NaN` and the two
infinities (from `parseInt`, integer arithmetic, and division by zero), so
they are modelled by the inductive `JsNum`.  JS objects whose key sets vary
are modelled as association lists in key-insertion order; records with a
fixed shape are modelled as structures with optional fields for keys that
may be absent.  The external record store (`strapi.db.query(...)`) is
modelled as a structure of query functions, and store failures for the
cascading updater as `Except`-valued operations.

Helpers imported by the file from elsewhere in the repository
(`getRelatedGroups`, `buildNestedStructure`, `filterOurResolvedReports`,
`buildAuthorModel`, `REGEX.sorting`) are not part of the given source tree;
each is defined below from the specification's description and marked
`Modelled from the spec:`.
-/

namespace StrapiComments

/-- A JavaScript number as reachable in this program: an integer, `NaN`,
`Infinity` or `-Infinity`. -/
inductive JsNum where
  | int (n : Int)
  | nan
  | inf
  | ninf
deriving DecidableEq, Repr

/-- JS unary negation on `JsNum`. -/
def jsNeg : JsNum → JsNum
  | .int n => .int (-n)
  | .nan => .nan
  | .inf => .ninf
  | .ninf => .inf

/-- JS addition on `JsNum`. -/
def jsAdd : JsNum → JsNum → JsNum
  | .nan, _ => .nan
  | _, .nan => .nan
  | .int a, .int b => .int (a + b)
  | .inf, .ninf => .nan
  | .ninf, .inf => .nan
  | .inf, _ => .inf
  | _, .inf => .inf
  | .ninf, _ => .ninf
  | _, .ninf => .ninf

/-- JS subtraction on `JsNum`. -/
def jsSub (a b : JsNum) : JsNum := jsAdd a (jsNeg b)

/-- JS multiplication on `JsNum`. -/
def jsMul : JsNum → JsNum → JsNum
  | .nan, _ => .nan
  | _, .nan => .nan
  | .int a, .int b => .int (a * b)
  | .inf, .int b => if b = 0 then .nan else if 0 < b then .inf else .ninf
  | .int a, .inf => if a = 0 then .nan else if 0 < a then .inf else .ninf
  | .ninf, .int b => if b = 0 then .nan else if 0 < b then .ninf else .inf
  | .int a, .ninf => if a = 0 then .nan else if 0 < a then .ninf else .inf
  | .inf, .inf => .inf
  | .inf, .ninf => .ninf
  | .ninf, .inf => .ninf
  | .ninf, .ninf => .inf

/-- `Math.floor(a / b)` on `JsNum` (the only use of division in the source,
line 122).  For integers, the floor of the real quotient is `Int.fdiv`. -/
def jsFloorDiv : JsNum → JsNum → JsNum
  | .nan, _ => .nan
  | _, .nan => .nan
  | .int a, .int b =>
    if b = 0 then (if a = 0 then .nan else if 0 < a then .inf else .ninf)
    else .int (Int.fdiv a b)
  | .inf, .int b => if b < 0 then .ninf else .inf
  | .ninf, .int b => if b < 0 then .inf else .ninf
  | .int _, .inf => .int 0
  | .int _, .ninf => .int 0
  | .inf, .inf => .nan
  | .inf, .ninf => .nan
  | .ninf, .inf => .nan
  | .ninf, .ninf => .nan

/-- JS remainder `a % b` on `JsNum` (an infinite or zero divisor and an
infinite dividend give `NaN`; otherwise the sign follows the dividend,
`Int.tmod`). -/
def jsMod : JsNum → JsNum → JsNum
  | .nan, _ => .nan
  | _, .nan => .nan
  | .inf, _ => .nan
  | .ninf, _ => .nan
  | .int a, .int b => if b = 0 then .nan else .int (Int.tmod a b)
  | .int a, .inf => .int a
  | .int a, .ninf => .int a

/-- Decimal digit test used by the `parseInt` model. -/
def isDecDigit (c : Char) : Bool := '0' ≤ c && c ≤ '9'

/-- Hexadecimal digit test used by the `parseInt` model. -/
def isHexDigit (c : Char) : Bool :=
  isDecDigit c || ('a' ≤ c && c ≤ 'f') || ('A' ≤ c && c ≤ 'F')

/-- Value of a (decimal or hexadecimal) digit character. -/
def hexDigitVal (c : Char) : Nat :=
  if isDecDigit c then c.toNat - '0'.toNat
  else if 'a' ≤ c && c ≤ 'f' then c.toNat - 'a'.toNat + 10
  else c.toNat - 'A'.toNat + 10

/-- Accumulate a digit list into a natural number in the given base. -/
def digitsToNat (base : Nat) (cs : List Char) : Nat :=
  cs.foldl (fun acc c => acc * base + hexDigitVal c) 0

/-- JS whitespace skipped by `parseInt`. -/
def isJsSpace (c : Char) : Bool :=
  c = ' ' || c = '\t' || c = '\n' || c = '\r'

/-- Native/lodash `parseInt` on a string: skip leading whitespace, take an
optional sign, then the longest prefix of decimal digits (or, after `0x`,
hexadecimal digits); no digits yields `NaN`. -/
def jsParseIntStr (s : String) : JsNum :=
  let cs := s.data.dropWhile isJsSpace
  let signAndRest : Int × List Char :=
    match cs with
    | '-' :: rest => (-1, rest)
    | '+' :: rest => (1, rest)
    | rest => (1, rest)
  let sign := signAndRest.1
  match signAndRest.2 with
  | '0' :: x :: rest =>
    if x = 'x' || x = 'X' then
      let digits := rest.takeWhile isHexDigit
      if digits.isEmpty then .nan else .int (sign * digitsToNat 16 digits)
    else .int (sign * digitsToNat 10 (('0' :: x :: rest).takeWhile isDecDigit))
  | rest =>
    let digits := rest.takeWhile isDecDigit
    if digits.isEmpty then .nan else .int (sign * digitsToNat 10 digits)

/-- A JS value appearing in the loosely-typed inputs of this code
(pagination values, `withCount` flags). -/
inductive JsVal where
  | num (n : Int)
  | str (s : String)
  | bool (b : Bool)
deriving DecidableEq, Repr

/-- lodash `parseInt` applied to an arbitrary JS value: numbers pass
through, strings are parsed, anything else is `NaN`. -/
def lodashParseInt : JsVal → JsNum
  | .num n => .int n
  | .str s => jsParseIntStr s
  | .bool _ => .nan

/-- `String.prototype.split` with a one-character separator, on the
character list of the string.  Structural, so it evaluates in the kernel. -/
def splitOnChar (sep : Char) : List Char → List (List Char)
  | [] => [[]]
  | c :: rest =>
    if c = sep then [] :: splitOnChar sep rest
    else
      match splitOnChar sep rest with
      | [] => [[c]]
      | g :: gs => (c :: g) :: gs

/-- `Array.prototype.join` with a one-character separator. -/
def intercalateChar (sep : Char) : List (List Char) → List Char
  | [] => []
  | [l] => l
  | l :: ls => l ++ sep :: intercalateChar sep ls

/-! ## Data model -/

/-- A moderation report attached to a comment (only the fields this layer
reads: `resolved` decides external visibility). -/
structure Report where
  id : Int
  resolved : Bool
  content : String := ""
deriving DecidableEq, Repr

/-- A comment record as handled by the service.  `threadOf` is the optional
parent-comment id (`none` is JS `null`; in these code paths `threadOf` is
never populated as an object, so an id reference suffices).  `gotThread` and
`threadFirstItemId` are the keys added by the thread annotation step in
`findAllFlat`; they are absent (`none`) on records coming from the store. -/
structure Comment where
  id : Int
  content : String := ""
  threadOf : Option Int := Option.none
  blocked : Bool := false
  blockedThread : Bool := false
  related : String := ""
  authorUser : Option String := Option.none
  author : Option String := Option.none
  reports : List Report := []
  gotThread : Option Bool := Option.none
  threadFirstItemId : Option Int := Option.none
deriving DecidableEq, Repr

/-- Filter criteria passed to the comment store.  Only the `threadOf` key is
inspected by the service itself (line 153); the rest of the criteria object
is carried opaquely. -/
structure Query where
  threadOf : Option Int := Option.none
  tag : String := ""
deriving DecidableEq, Repr

/-- A related entity as fetched from a target collection (before tagging). -/
structure RelatedRecord where
  id : Int
  tag : String := ""
deriving DecidableEq, Repr

/-- A related entity tagged with its owning collection uid (the shape
produced by `findRelatedEntitiesFor` and accepted as the upfront
`relatedEntity` argument of `findAllFlat`). -/
structure TaggedRecord where
  id : Int
  uid : String
  tag : String := ""
deriving DecidableEq, Repr

/-- The decoded record id of a relation token: `parseInt` yields a number —
possibly `NaN` — and the code's string fallback would keep the raw string. -/
inductive RelId where
  | num (n : Int)
  | nan
  | str (s : String)
deriving DecidableEq, Repr

/-- The error value raised by the service (`PluginError`): HTTP-style status,
message, and the optional `{original, filtered}` payload of the moderation
filter. -/
structure PluginErr where
  status : Nat
  message : String
  original : Option String := Option.none
  filtered : Option String := Option.none
deriving DecidableEq, Repr

/-! ## Relation codec -/

/-- lodash `isNumber` on a `parseInt` result: every JS number is a number,
*including `NaN`* (lodash only excludes non-number types). -/
def lodashIsNumber : JsNum → Bool
  | .int _ => true
  | .nan => true
  | .inf => true
  | .ninf => true

/-- Modelled from the spec: `getRelatedGroups` (imported from
`server/utils/functions`, which is not under `src/`) splits the relation
token `"<collectionId>:<recordId>"` into its collection id and record id.
The collection id may itself contain colons (Strapi uids such as
`api::x.y`), so the split is at the last colon; a token with no colon has
no record id part. -/
def getRelatedGroups (token : String) : String × String :=
  match (splitOnChar ':' token.data).reverse with
  | [] => (token, "")
  | [_] => (token, "")
  | idPart :: restRev => (⟨intercalateChar ':' restRev.reverse⟩, ⟨idPart⟩)

/-- Modelled from the spec: the codec's `encode(collectionId, recordId)`
(no encoder appears under `src/`; the spec defines the token format as
`"<collectionId>:<recordId>"`). -/
def encodeRelation (collectionId recordId : String) : String :=
  collectionId ++ ":" ++ recordId

/-- The id-coercion step shared by `parseRelationString` (lines 270-271) and
`findRelatedEntitiesFor` (lines 199-200):
`parseInt` the id string, then keep the parse if `isNumber` accepts it and
fall back to the raw string otherwise. -/
def coerceRelatedId (relatedStringId : String) : RelId :=
  let parsedRelatedId := jsParseIntStr relatedStringId
  if lodashIsNumber parsedRelatedId then
    match parsedRelatedId with
    | .int n => .num n
    | _ => .nan
  else .str relatedStringId

/-- `parseRelationString` (lines 268-278), with the configured allow-list of
enabled collections (resolved by `getConfig`) passed in explicitly. -/
def parseRelationString (enabledCollections : List String) (relation : String) :
    Except PluginErr (String × RelId) :=
  let groups := getRelatedGroups relation
  let uid := groups.1
  let relatedId := coerceRelatedId groups.2
  if !(enabledCollections.contains uid) then
    .error { status := 403,
             message := "Action not allowed for collection " ++ uid ++
               ". Use one of: " ++ String.intercalate ", " enabledCollections }
  else .ok (uid, relatedId)

/-! ## Sort compiler (`findAllFlat`, lines 59-69) -/

/-- A value of the compiled `orderBy` object: either a direction string or a
nested object for a dotted field path. -/
inductive OVal where
  | dir (d : String)
  | node (fields : List (String × OVal))

/-- Update one key of a JS object kept as an association list: an existing
key is overwritten in place, a new key is appended (JS key insertion
order). -/
def assocSet {α : Type} : List (String × α) → String → α → List (String × α)
  | [], k, v => [(k, v)]
  | (k', v') :: rest, k, v =>
    if k' = k then (k, v) :: rest else (k', v') :: assocSet rest k v

/-- Read one key of a JS object kept as an association list. -/
def assocGet {α : Type} : List (String × α) → String → Option α
  | [], _ => Option.none
  | (k', v') :: rest, k => if k' = k then some v' else assocGet rest k

/-- lodash `set(obj, path, value)` on a plain object, for an already-split
path: intermediate keys whose current value is not an object are replaced by
fresh objects. -/
def setPath (obj : List (String × OVal)) : List String → String → List (String × OVal)
  | [], _ => obj
  | [k], v => assocSet obj k (.dir v)
  | k :: rest, v =>
    let child : List (String × OVal) :=
      match assocGet obj k with
      | some (.node fields) => fields
      | _ => []
    assocSet obj k (.node (setPath child rest v))

/-- Modelled from the spec: `REGEX.sorting` (imported from
`server/utils/constants`, which is not under `src/`) recognizes a sort
string carrying an explicit `:asc` or `:desc` direction suffix. -/
def sortingTest (s : String) : Bool :=
  List.isSuffixOf ":asc".data s.data || List.isSuffixOf ":desc".data s.data

/-- One step of the sort `reduce` (lines 64-67): split the (already
normalized) sort string on `:`, take the direction from the end, and
`set` the remaining dotted field path to that direction. -/
def compileSortStep (prev : List (String × OVal)) (curr : String) : List (String × OVal) :=
  match (splitOnChar ':' curr.data).reverse with
  | [] => prev
  | ty :: partsRev =>
    let path := splitOnChar '.' (intercalateChar '.' partsRev.reverse)
    setPath prev (path.map (fun l => (⟨l⟩ : String))) (⟨ty⟩ : String)

/-- The sort compiler (lines 62-67): default every string without a
recognized direction suffix to `:asc`, then fold the assignments into the
`orderBy` object. -/
def compileSort (sorts : List String) : List (String × OVal) :=
  (sorts.map (fun s => if sortingTest s then s else s ++ ":asc")).foldl compileSortStep []

/-- The `sort` argument of `findAllFlat`: absent, a string, or an array of
strings. -/
inductive SortInput where
  | absent
  | str (s : String)
  | arr (l : List String)

/-- Lines 59-69: the `orderBy` query extension is built only when `sort` is
a truthy string or an array (the empty string is falsy in JS). -/
def sortToOrderBy : SortInput → Option (List (String × OVal))
  | .absent => Option.none
  | .str s => if s = "" then Option.none else some (compileSort [s])
  | .arr l => some (compileSort l)

/-! ## Pagination compiler (`findAllFlat`, lines 72-133) -/

/-- The `pagination` argument: a JS object, kept as an association list in
key order. -/
abbrev PagObj := List (String × JsVal)

/-- The `meta.pagination` object of a `findAllFlat` response; absent keys
are `none` (the code explicitly writes `pageCount: undefined` outside
page-based mode, which is the same as leaving the key out for every
consumer). -/
structure MetaPagination where
  page : Option JsNum := Option.none
  pageSize : Option JsNum := Option.none
  start : Option JsNum := Option.none
  limit : Option JsNum := Option.none
  pageCount : Option JsNum := Option.none
  total : Option JsNum := Option.none
deriving DecidableEq, Repr

/-- Lines 73-100: `parseInt` every pagination value, destructure with the
defaults `page=1, pageSize=10, start=0, limit=10`, select page-based mode
when a `page` or `pageSize` key is present, and produce the
`(offset, limit)` query extension together with the matching meta. -/
def compilePagination (pagination : PagObj) : (JsNum × JsNum) × MetaPagination :=
  let parsedPagination := pagination.map (fun kv => (kv.1, lodashParseInt kv.2))
  let page := (List.lookup "page" parsedPagination).getD (.int 1)
  let pageSize := (List.lookup "pageSize" parsedPagination).getD (.int 10)
  let start := (List.lookup "start" parsedPagination).getD (.int 0)
  let limit := (List.lookup "limit" parsedPagination).getD (.int 10)
  let paginationByPage :=
    (List.lookup "page" parsedPagination).isSome ||
    (List.lookup "pageSize" parsedPagination).isSome
  let offsetLimit :=
    (if paginationByPage then jsMul (jsSub page (.int 1)) pageSize else start,
     if paginationByPage then pageSize else limit)
  let metaPagination : MetaPagination :=
    if paginationByPage then { page := some page, pageSize := some pageSize }
    else { start := some start, limit := some limit }
  (offsetLimit, metaPagination)

/-- The parsed value the destructuring of `parsedPagination` sees for one
pagination key: the raw value put through lodash `parseInt` when the key is
present.  Used to state the pagination claims. -/
def parsedPagValue (pagination : PagObj) (k : String) : Option JsNum :=
  (List.lookup k pagination).map lodashParseInt

/-- Line 115: `withCount` counts only when the raw (unparsed) value is the
boolean `true` or the literal string `"true"`. -/
def wantsCount (pagination : PagObj) : Bool :=
  match List.lookup "withCount" pagination with
  | some v => v == .str "true" || v == .bool true
  | Option.none => false

/-- Lines 116-132: run the count query and extend the meta with `total` and
— only when a `page` key is in the meta — `pageCount`, which is
`Math.floor(total / pageSize)` plus one unless `total` is an exact multiple
of `pageSize`.  An absent `pageSize` behaves as `NaN` in the arithmetic,
exactly as `undefined` does in JS. -/
def applyWithCount (meta : MetaPagination) (total : Nat) : MetaPagination :=
  let ps := meta.pageSize.getD .nan
  let pageCount := jsFloorDiv (.int total) ps
  { meta with
    pageCount :=
      if meta.page.isSome then
        some (if jsMod (.int total) ps = .int 0 then pageCount else jsAdd pageCount (.int 1))
      else Option.none,
    total := some (.int total) }

/-! ## Sanitizer and moderation filter -/

/-- Modelled from the spec: `buildAuthorModel` (imported from
`server/utils/functions`, which is not under `src/`) produces the external
author descriptor from the raw `authorUser` reference and strips that
internal-only field. -/
def buildAuthorModel (entity : Comment) : Comment :=
  { entity with
    author := match entity.authorUser with
      | some u => some u
      | Option.none => entity.author,
    authorUser := Option.none }

/-- `sanitizeCommentEntity` (lines 255-262).  The source additionally maps
`buildAuthorModel` over `threadOf` when it is a populated object; in the
modelled code paths `threadOf` is an id or `null`, so that branch is the
identity. -/
def sanitizeCommentEntity (entity : Comment) : Comment :=
  buildAuthorModel { entity with threadOf := entity.threadOf }

/-- Modelled from the spec: `filterOurResolvedReports` (imported from
`server/utils/functions`, which is not under `src/`) removes
already-resolved moderation reports from the comment's externally visible
`reports` collection. -/
def filterOurResolvedReports (entity : Comment) : Comment :=
  { entity with reports := entity.reports.filter (fun r => !r.resolved) }

/-- The profanity-filter capability (`bad-words` library): constructible
from an optional custom configuration; the service consumes
`isProfane` and `clean`. -/
structure BadWordsFilter where
  isProfane : String → Bool
  clean : String → String

/-- An opaque custom filter configuration object. -/
structure FilterCfg where
  tag : String := ""
deriving DecidableEq, Repr

/-- The resolved bad-words configuration value: a boolean flag or a custom
configuration object. -/
inductive BWConfig where
  | bool (b : Bool)
  | obj (cfg : FilterCfg)
deriving DecidableEq, Repr

/-- JS truthiness of the resolved configuration (line 282): objects are
truthy, booleans are themselves. -/
def bwTruthy : BWConfig → Bool
  | .bool b => b
  | .obj _ => true

/-- Line 283: `isObject(config) ? config : undefined` — the constructor
argument of the filter. -/
def bwCfgObj : BWConfig → Option FilterCfg
  | .obj o => some o
  | .bool _ => Option.none

/-- `checkBadWords` (lines 280-294) with the config-store lookup and the
filter library passed in explicitly.  `content` is optional; the empty
string is falsy in JS, so absent or empty content never reaches the
filter. -/
def checkBadWords (mkFilter : Option FilterCfg → BadWordsFilter) (config : BWConfig)
    (content : Option String) : Except PluginErr (Option String) :=
  if bwTruthy config then
    let filter := mkFilter (bwCfgObj config)
    match content with
    | some s =>
      if s ≠ "" && filter.isProfane s then
        .error { status := 400,
                 message := "Bad language used! Please polite your comment...",
                 original := some s,
                 filtered := some (filter.clean s) }
      else .ok content
    | Option.none => .ok content
  else .ok content

/-! ## The comment store and `findAllFlat` -/

/-- The `populate` object passed to the store. -/
abbrev Populate := List (String × Bool)

/-- The generic persistent store consumed by the service (the query engine
reached as `strapi.db.query(...)`), as a structure of pure query functions:
`findComments` is `findMany` on the comment collection (criteria, populate,
optional `orderBy`, optional `(offset, limit)`), `countComments` is `count`,
`findWithCountThread` is `findWithCount({where: {threadOf: id}})`, and
`findRelated uid ids` is `findMany` on the target collection `uid` with an
`id ∈ ids` filter. -/
structure DB where
  findComments : Query → Populate → Option (List (String × OVal)) →
    Option (JsNum × JsNum) → List Comment
  countComments : Query → Nat
  findWithCountThread : Int → List Comment × Nat
  findRelated : String → List RelId → List RelatedRecord
  findOneComment : Query → Option Comment

/-- `Array.from(new Set(xs))` — dedupe keeping first occurrences (JS `Set`
identifies the two `NaN`s, as does equality on `RelId`). -/
def dedupRelIds (l : List RelId) : List RelId :=
  l.foldl (fun acc x => if acc.contains x then acc else acc ++ [x]) []

/-- One step of the grouping `reduce` of `findRelatedEntitiesFor`
(lines 197-207): `{...acc, [uid]: [...(acc[uid] || []), id]}`. -/
def addToGroup (acc : List (String × List RelId)) (uid : String) (rid : RelId) :
    List (String × List RelId) :=
  assocSet acc uid ((assocGet acc uid).getD [] ++ [rid])

/-- `findRelatedEntitiesFor` (lines 196-222): decode every comment's
relation token, group and dedupe the record ids per collection uid, fetch
each group, and tag every fetched record with its collection uid. -/
def findRelatedEntitiesFor (db : DB) (entities : List Comment) : List TaggedRecord :=
  let data := entities.foldl
    (fun acc cur =>
      let groups := getRelatedGroups cur.related
      addToGroup acc groups.1 (coerceRelatedId groups.2))
    []
  (data.map (fun g =>
    (db.findRelated g.1 (dedupRelIds g.2)).map
      (fun r => { id := r.id, uid := g.1, tag := r.tag : TaggedRecord }))).flatten

/-- The token a fetched record round-trips to: `` `${relatedEntity.uid}:${relatedEntity.id}` ``. -/
def relTokenOf (r : TaggedRecord) : String := r.uid ++ ":" ++ toString r.id

/-- The result of merging a related entity into a comment: the JS spread
`{...entity, related: <record or undefined>}` keeps every field of the
comment but *replaces* the `related` token with the found record (or
`undefined`), so the merged shape has no token field at all. -/
structure MergedComment where
  id : Int
  content : String
  threadOf : Option Int
  blocked : Bool
  blockedThread : Bool
  authorUser : Option String
  author : Option String
  reports : List Report
  gotThread : Option Bool
  threadFirstItemId : Option Int
  related : Option TaggedRecord
deriving DecidableEq, Repr

/-- `mergeRelatedEntityTo` (lines 225-230): find the fetched record whose
`"<uid>:<id>"` string equals the comment's token. -/
def mergeRelatedEntityTo (entity : Comment) (relatedEntities : List TaggedRecord) :
    MergedComment :=
  { id := entity.id,
    content := entity.content,
    threadOf := entity.threadOf,
    blocked := entity.blocked,
    blockedThread := entity.blockedThread,
    authorUser := entity.authorUser,
    author := entity.author,
    reports := entity.reports,
    gotThread := entity.gotThread,
    threadFirstItemId := entity.threadFirstItemId,
    related := relatedEntities.find? (fun r => entity.related == relTokenOf r) }

/-- An entry of the `data` array returned by `findAllFlat`: a sanitized
comment, or — when related entities were mapped — a merged comment. -/
inductive CommentOut where
  | raw (c : Comment)
  | merged (m : MergedComment)
deriving DecidableEq, Repr

/-- The named arguments of `findAllFlat`. -/
structure FindAllArgs where
  query : Query := {}
  populate : Populate := []
  sort : SortInput := .absent
  pagination : Option PagObj := Option.none

/-- The response of `findAllFlat`: the data array plus the meta object when
it is nonempty (it is populated exactly when a pagination object was
given). -/
structure FindAllResult where
  data : List CommentOut
  meta : Option MetaPagination

/-- JS `a || b || null` on parent ids (line 153); `0` is falsy. -/
def jsOrId (a b : Option Int) : Option Int :=
  match a with
  | some n => if n = 0 then (match b with
      | some m => if m = 0 then Option.none else some m
      | Option.none => Option.none)
    else some n
  | Option.none =>
    match b with
    | some m => if m = 0 then Option.none else some m
    | Option.none => Option.none

/-- `{...defaultPopulate, ...populate}` (lines 108-111). -/
def mergePopulate (a b : Populate) : Populate :=
  b.foldl (fun acc kv => assocSet acc kv.1 kv.2) a

/-- The query extension built by `findAllFlat` (lines 57-101): the compiled
`orderBy` and, when a pagination object is present, the compiled
`(offset, limit)`. -/
def findAllQueryExt (args : FindAllArgs) :
    Option (List (String × OVal)) × Option (JsNum × JsNum) :=
  (sortToOrderBy args.sort, args.pagination.map (fun p => (compilePagination p).1))

/-- The meta object of a `findAllFlat` response (lines 71-133): present
exactly when a pagination object was given, extended by the count data when
`withCount` was requested. -/
def findAllMeta (db : DB) (args : FindAllArgs) : Option MetaPagination :=
  match args.pagination with
  | Option.none => Option.none
  | some pag =>
    let m := (compilePagination pag).2
    if wantsCount pag then some (applyWithCount m (db.countComments args.query))
    else some m

/-- The main store fetch of `findAllFlat` (lines 103-113). -/
def rawEntries (db : DB) (args : FindAllArgs) : List Comment :=
  db.findComments args.query (mergePopulate [("authorUser", true)] args.populate)
    (findAllQueryExt args).1 (findAllQueryExt args).2

/-- Thread annotation and sanitization (lines 135-143 and 148-157): per
entry, one `findWithCount({where: {threadOf: id}})` query yields the
immediate-children count and the first child's id; each entry is then
sanitized with `threadOf` defaulted from the query, `gotThread` and
`threadFirstItemId` attached. -/
def annotatedEntries (db : DB) (args : FindAllArgs) : List Comment :=
  let entries := rawEntries db args
  let entriesWithThreads : List (Int × Nat × Option Int) := entries.map (fun e =>
    let fetched := db.findWithCountThread e.id
    (e.id, fetched.2, fetched.1.head?.map (fun n => n.id)))
  entries.map (fun e =>
    let threadedItem := entriesWithThreads.find? (fun t => t.1 == e.id)
    sanitizeCommentEntity
      { e with
        threadOf := jsOrId args.query.threadOf e.threadOf,
        gotThread := some (decide (0 < (threadedItem.map (fun t => t.2.1)).getD 0)),
        threadFirstItemId := threadedItem.bind (fun t => t.2.2) })

/-- Line 145: the related entities to map — the upfront `relatedEntity`
argument when one was supplied (JS `relatedEntity !== null`), otherwise the
batch resolution over the fetched entries. -/
def relatedFor (db : DB) (entries : List Comment) (relatedEntity : Option TaggedRecord) :
    List TaggedRecord :=
  match relatedEntity with
  | some r => [r]
  | Option.none => findRelatedEntitiesFor db entries

/-- `findAllFlat` (lines 47-165). -/
def findAllFlat (db : DB) (args : FindAllArgs) (relatedEntity : Option TaggedRecord) :
    FindAllResult :=
  let entries := rawEntries db args
  let relatedEntities := relatedFor db entries relatedEntity
  let hasRelatedEntitiesToMap := 0 < relatedEntities.length
  let result := annotatedEntries db args
  { data :=
      if hasRelatedEntitiesToMap then
        result.map (fun c => CommentOut.merged (mergeRelatedEntityTo c relatedEntities))
      else result.map CommentOut.raw,
    meta := findAllMeta db args }

/-- `findOne` (lines 180-193): a missing record raises 404, a found record
is sanitized and gets its resolved reports filtered out. -/
def findOne (db : DB) (criteria : Query) : Except PluginErr Comment :=
  match db.findOneComment criteria with
  | Option.none =>
    .error { status := 404, message := "Comment does not exist. Check your payload please." }
  | some entity => .ok (filterOurResolvedReports (sanitizeCommentEntity entity))

/-! ## Hierarchical tree builder -/

/-- The id of a `data` entry (merging preserves it). -/
def outId : CommentOut → Int
  | .raw c => c.id
  | .merged m => m.id

/-- The parent reference of a `data` entry. -/
def outThreadOf : CommentOut → Option Int
  | .raw c => c.threadOf
  | .merged m => m.threadOf

/-- The `blockedThread` flag of a `data` entry. -/
def outBlockedThread : CommentOut → Bool
  | .raw c => c.blockedThread
  | .merged m => m.blockedThread

/-- A node of the nested reply forest: a comment with its `children`. -/
inductive CommentTree where
  | node (comment : CommentOut) (children : List CommentTree)

/-- Modelled from the spec: one level of `buildNestedStructure` (imported
from `server/utils/functions`, which is not under `src/`): the children of
parent id `pid` are the entries whose `threadOf` equals `pid` — minus, when
`dropBlockedThreads` is set, every entry whose `blockedThread` flag is true,
whose whole subtree is thereby skipped — each recursively given its own
children.  Recursion is by fuel so that the definition is structural and
evaluates in the kernel; the spec bounds the depth by the actual tree
depth, which for an acyclic input list is at most its length. -/
def buildNestedLevel (entities : List CommentOut) (dropBlockedThreads : Bool)
    (fuel : Nat) : Option Int → List CommentTree :=
  Nat.rec (motive := fun _ => Option Int → List CommentTree)
    (fun _ => [])
    (fun _ ih pid =>
      (entities.filter (fun c =>
          outThreadOf c == pid && !(dropBlockedThreads && outBlockedThread c))).map
        (fun c => CommentTree.node c (ih (some (outId c)))))
    fuel

/-- Modelled from the spec: `buildNestedStructure` over a flat annotated
list, starting from the given parent id (`none` selects the roots); the
fuel `entities.length + 1` covers any acyclic input's depth. -/
def buildNestedStructure (entities : List CommentOut) (startingFromId : Option Int)
    (dropBlockedThreads : Bool) : List CommentTree :=
  buildNestedLevel entities dropBlockedThreads (entities.length + 1) startingFromId

/-- `findAllInHierarchy` (lines 168-177): fetch the flat annotated list
(no pagination is passed through) and assemble the nested structure. -/
def findAllInHierarchy (db : DB) (query : Query) (populate : Populate) (sort : SortInput)
    (startingFromId : Option Int) (dropBlockedThreads : Bool)
    (relatedEntity : Option TaggedRecord) : List CommentTree :=
  let entities := findAllFlat db
    { query := query, populate := populate, sort := sort, pagination := Option.none }
    relatedEntity
  buildNestedStructure entities.data startingFromId dropBlockedThreads

/-! ## Cascading field updater (`modifiedNestedNestedComments`, lines 232-253)

The function reaches the store through `strapi.bd.query(...)` — note `bd`,
unlike the `strapi.db.query(...)` used everywhere else in the file.  The
`MncStore` structure stands for that object's query interface; its
operations return `Except Unit` so that a store whose calls throw (in
particular the always-throwing interface that an undefined `strapi.bd`
would produce at runtime) is representable.  The `try/catch` wrapping the
whole body converts any store error into the boolean `false`. -/

/-- The store interface used by the cascading updater: `fetchChildren id` is
`findMany({where: {threadOf: id}})` (records are represented by their ids),
and `updateMany ids fieldName value` is
`updateMany({where: {id: ids}, data: {[fieldName]: value}})`, returning the
updated records. -/
structure MncStore where
  fetchChildren : Int → Except Unit (List Int)
  updateMany : List Int → String → Bool → Except Unit (List Int)

/-- `modifiedNestedNestedComments` (lines 232-253): fetch the immediate
children, batch-update them, and when the fetched and updated counts agree
and are positive, recurse into every updated child; the returned boolean
compares the number of completed recursions with the number of updated
children.  Recursion is by fuel (the JS recursion depth is bounded by the
store's tree depth); `Nat.rec` keeps the definition kernel-evaluable.  Fuel
zero returns `false`, so every theorem below assumes at least one unit of
fuel. -/
def modifiedNestedNestedComments (st : MncStore) (fieldName : String) (value : Bool)
    (fuel : Nat) : Int → Bool :=
  Nat.rec (motive := fun _ => Int → Bool)
    (fun _ => false)
    (fun _ ih id =>
      match st.fetchChildren id with
      | .error _ => false
      | .ok entitiesToChange =>
        match st.updateMany entitiesToChange fieldName value with
        | .error _ => false
        | .ok changedEntities =>
          if entitiesToChange.length = changedEntities.length ∧
              0 < changedEntities.length then
            let nestedTransactions := changedEntities.map ih
            nestedTransactions.length == changedEntities.length
          else true)
    fuel

/-! ## Concrete instances used to evaluate the theorems -/

/-- A store whose every query returns nothing. -/
def trivDB : DB :=
  { findComments := fun _ _ _ _ => [],
    countComments := fun _ => 0,
    findWithCountThread := fun _ => ([], 0),
    findRelated := fun _ _ => [],
    findOneComment := fun _ => Option.none }

/-- A pagination object selecting page-based mode with string values. -/
def c4Pag : PagObj := [("page", JsVal.str "2"), ("pageSize", JsVal.str "5")]

/-- `findAllFlat` arguments carrying `c4Pag`. -/
def c4Args : FindAllArgs := { pagination := some c4Pag }

/-- A store holding 11 comments for the count query. -/
def c5DB : DB := { trivDB with countComments := fun _ => 11 }

/-- A store holding 10 comments for the count query. -/
def c5DB10 : DB := { trivDB with countComments := fun _ => 10 }

/-- A pagination object requesting `withCount` in page-based mode. -/
def c5Pag : PagObj := [("pageSize", JsVal.str "5"), ("withCount", JsVal.str "true")]

/-- `findAllFlat` arguments carrying `c5Pag`. -/
def c5Args : FindAllArgs := { pagination := some c5Pag }

/-- A concrete profanity filter: exactly the word `"damn"` is profane. -/
def c7Filter : BadWordsFilter :=
  { isProfane := fun s => s == "damn", clean := fun _ => "****" }

/-- A filter constructor ignoring its configuration. -/
def c7Mk : Option FilterCfg → BadWordsFilter := fun _ => c7Filter

/-- A comment carrying one resolved and one unresolved report. -/
def c8Entity : Comment :=
  { id := 7, authorUser := some "u1",
    reports := [{ id := 1, resolved := true }, { id := 2, resolved := false }] }

/-- A store finding `c8Entity` for any criteria. -/
def c8DB : DB := { trivDB with findOneComment := fun _ => some c8Entity }

/-- The flat list of the blocked-thread pruning example: a root, a blocked
reply, and a reply to the blocked reply. -/
def c9Entities : List CommentOut :=
  [.raw { id := 1 },
   .raw { id := 2, threadOf := some 1, blockedThread := true },
   .raw { id := 3, threadOf := some 2 }]

/-- A depth rank for `c9Entities`: parents rank strictly below children. -/
def c9Rank : Option Int → Nat
  | Option.none => 0
  | some n => n.toNat

/-- A comment whose relation token matches no fetched record below. -/
def c10Comment : Comment := { id := 5, related := "article:1" }

/-- A store returning only `c10Comment`. -/
def c10DB : DB := { trivDB with findComments := fun _ _ _ _ => [c10Comment] }

/-- An upfront related entity whose token is `"article:2"`. -/
def c10Rel : TaggedRecord := { id := 2, uid := "article" }

/-- A cascading-update store where comment 1 has the single child 2, every
update succeeds and reports all requested records, but fetching the
children of 2 throws. -/
def mncCexStore : MncStore :=
  { fetchChildren := fun id =>
      if id = 1 then .ok [2] else if id = 2 then .error () else .ok [],
    updateMany := fun ids _ _ => .ok ids }

/-- A cascading-update store where both store calls succeed for comment 1. -/
def c1OkStore : MncStore :=
  { fetchChildren := fun id => if id = 1 then .ok [2, 3] else .ok [],
    updateMany := fun ids _ _ => .ok ids }

/-- A cascading-update store exercising the three local-recovery branches:
fetching children of 1 throws, updating the child of 3 throws, and the
children of 2 update with a count mismatch (two fetched, one updated). -/
def c2Store : MncStore :=
  { fetchChildren := fun id =>
      if id = 1 then .error ()
      else if id = 2 then .ok [4, 5]
      else if id = 3 then .ok [6]
      else .ok [],
    updateMany := fun ids _ _ =>
      if ids = [4, 5] then .ok [4]
      else if ids = [6] then .error ()
      else .ok ids }

/-! ## Helper lemmas -/

theorem mnc_succ (st : MncStore) (fieldName : String) (value : Bool) (fuel : Nat) (id : Int) :
    modifiedNestedNestedComments st fieldName value (fuel + 1) id =
      (match st.fetchChildren id with
      | .error _ => false
      | .ok entitiesToChange =>
        match st.updateMany entitiesToChange fieldName value with
        | .error _ => false
        | .ok changedEntities =>
          if entitiesToChange.length = changedEntities.length ∧
              0 < changedEntities.length then
            (changedEntities.map
              (modifiedNestedNestedComments st fieldName value fuel)).length ==
              changedEntities.length
          else true) := rfl

theorem splitOnChar_ne_nil (sep : Char) (l : List Char) : splitOnChar sep l ≠ [] := by
  induction l with
  | nil => simp [splitOnChar]
  | cons c rest ih =>
    by_cases hc : c = sep
    · simp [splitOnChar, hc]
    · cases h : splitOnChar sep rest with
      | nil => exact absurd h ih
      | cons g gs => simp [splitOnChar, hc, h]

theorem splitOnChar_append (sep : Char) (a b : List Char) :
    splitOnChar sep (a ++ sep :: b) = splitOnChar sep a ++ splitOnChar sep b := by
  induction a with
  | nil => simp [splitOnChar]
  | cons c a ih =>
    by_cases hc : c = sep
    · simp [splitOnChar, hc, ih]
    · cases h : splitOnChar sep a with
      | nil => exact absurd h (splitOnChar_ne_nil sep a)
      | cons g gs => simp [splitOnChar, hc, ih, h]

theorem splitOnChar_eq_single (sep : Char) (l : List Char) (h : sep ∉ l) :
    splitOnChar sep l = [l] := by
  induction l with
  | nil => rfl
  | cons c rest ih =>
    have hc : ¬c = sep := fun e => h (e ▸ List.mem_cons_self c rest)
    have hrest : sep ∉ rest := fun m => h (List.mem_cons_of_mem _ m)
    simp [splitOnChar, hc, ih hrest]

theorem intercalateChar_splitOnChar (sep : Char) (l : List Char) :
    intercalateChar sep (splitOnChar sep l) = l := by
  induction l with
  | nil => rfl
  | cons c rest ih =>
    by_cases hc : c = sep
    · subst hc
      cases h : splitOnChar c rest with
      | nil => exact absurd h (splitOnChar_ne_nil c rest)
      | cons g gs =>
        have ih' : intercalateChar c (g :: gs) = rest := h ▸ ih
        simp [splitOnChar, intercalateChar, h, ih']
    · cases h : splitOnChar sep rest with
      | nil => exact absurd h (splitOnChar_ne_nil sep rest)
      | cons g gs =>
        have ih' : intercalateChar sep (g :: gs) = rest := h ▸ ih
        cases gs with
        | nil =>
          simp [intercalateChar] at ih'
          simp [splitOnChar, hc, h, intercalateChar, ih']
        | cons g2 gs2 =>
          simp [intercalateChar] at ih'
          simp [splitOnChar, hc, h, intercalateChar, ih']

theorem strData_append (a b : String) : (a ++ b).data = a.data ++ b.data := rfl

theorem getRelatedGroups_encode (uid sid : String) (h : ':' ∉ sid.data) :
    getRelatedGroups (encodeRelation uid sid) = (uid, sid) := by
  unfold getRelatedGroups encodeRelation
  have hdata : (uid ++ ":" ++ sid).data = uid.data ++ ':' :: sid.data := by
    rw [strData_append, strData_append]
    simp [List.append_assoc]
  rw [hdata, splitOnChar_append, splitOnChar_eq_single _ _ h]
  rw [List.reverse_append]
  obtain ⟨g, gs, hgs⟩ :=
    List.exists_cons_of_ne_nil
      (fun e => splitOnChar_ne_nil ':' uid.data (List.reverse_eq_nil_iff.mp e))
  rw [hgs]
  show (⟨intercalateChar ':' (g :: gs).reverse⟩, (⟨sid.data⟩ : String)) = (uid, sid)
  rw [← hgs, List.reverse_reverse, intercalateChar_splitOnChar]

theorem sortingTest_append_asc (s : String) : sortingTest (s ++ ":asc") = true := by
  have hsuf : List.isSuffixOf ":asc".data (s ++ ":asc").data := by
    rw [strData_append]
    exact List.isSuffixOf_iff_suffix.mpr (List.suffix_append _ _)
  simp [sortingTest, hsuf]

theorem lookup_map_parseInt (pag : PagObj) (k : String) :
    List.lookup k (pag.map (fun kv => (kv.1, lodashParseInt kv.2))) =
      (List.lookup k pag).map lodashParseInt := by
  induction pag with
  | nil => rfl
  | cons kv rest ih =>
    by_cases h : k = kv.1
    · simp [List.lookup, h]
    · have hb : (k == kv.1) = false := beq_eq_false_iff_ne.mpr h
      simp [List.lookup, hb, ih]

theorem buildNestedLevel_succ (entities : List CommentOut) (drop : Bool) (fuel : Nat)
    (pid : Option Int) :
    buildNestedLevel entities drop (fuel + 1) pid =
      (entities.filter (fun c =>
          outThreadOf c == pid && !(drop && outBlockedThread c))).map
        (fun c => CommentTree.node c (buildNestedLevel entities drop fuel (some (outId c)))) :=
  rfl

theorem buildNestedLevel_stable (entities : List CommentOut) (drop : Bool)
    (rk : Option Int → Nat)
    (hP : ∀ c ∈ entities, rk (outThreadOf c) < rk (some (outId c)))
    (hB : ∀ c ∈ entities, rk (some (outId c)) ≤ entities.length) :
    ∀ (k : Nat) (pid : Option Int) (f g : Nat),
      entities.length ≤ k + rk pid → k ≤ f → k ≤ g →
      buildNestedLevel entities drop f pid = buildNestedLevel entities drop g pid := by
  intro k
  induction k with
  | zero =>
    intro pid f g hk _ _
    have hfilter : entities.filter (fun c =>
        outThreadOf c == pid && !(drop && outBlockedThread c)) = [] := by
      rw [List.filter_eq_nil_iff]
      intro c hc hcond
      have h1 : outThreadOf c = pid := eq_of_beq (Bool.and_eq_true_iff.mp hcond).1
      have h2 := hP c hc
      have h3 := hB c hc
      rw [h1] at h2
      omega
    have hall : ∀ m, buildNestedLevel entities drop m pid = [] := by
      intro m
      cases m with
      | zero => rfl
      | succ m => rw [buildNestedLevel_succ, hfilter]; rfl
    rw [hall f, hall g]
  | succ k ih =>
    intro pid f g hk hf hg
    cases f with
    | zero => omega
    | succ f' =>
      cases g with
      | zero => omega
      | succ g' =>
        rw [buildNestedLevel_succ, buildNestedLevel_succ]
        apply List.map_congr_left
        intro c hc
        have hcmem : c ∈ entities := (List.mem_filter.mp hc).1
        have hthread : outThreadOf c = pid :=
          eq_of_beq (Bool.and_eq_true_iff.mp (List.mem_filter.mp hc).2).1
        have hrk := hP c hcmem
        rw [hthread] at hrk
        congr 1
        exact ih (some (outId c)) f' g' (by omega) (by omega) (by omega)

/-! ## Claims -/

/-- C1 (corrected), counterexample to the claim as stated: in `mncCexStore`
fetching the children of comment 1 yields `[2]` and the batch update
reports `[2]` updated, so the call recurses into the single child 2 — whose
own recursion returns `false` (its child fetch throws) — yet the call on 1
returns `true`, not `false` as "returns true exactly when every child
recursion returns true" would require. -/
theorem c1_counterexample :
    mncCexStore.fetchChildren 1 = .ok [2] ∧
    mncCexStore.updateMany [2] "blocked" true = .ok [2] ∧
    modifiedNestedNestedComments mncCexStore "blocked" true 4 2 = false ∧
    modifiedNestedNestedComments mncCexStore "blocked" true 5 1 = true := by
  refine ⟨rfl, rfl, rfl, rfl⟩

/-- C1 (amended): when fetching the children succeeds with no records the
call returns `true`; when the fetched-children count equals the reported
update count and is positive the call recurses into every updated child's
subtree but returns `true` regardless of the children's boolean results
(the source compares `nestedTransactions.length` — the number of completed
recursions, always equal to the number of children — with
`changedEntities.length`).  In fact whenever both store calls succeed the
call returns `true`, and it returns `false` exactly when the fetch or the
update throws. -/
theorem c1_cascade_returns (st : MncStore) (fieldName : String) (value : Bool)
    (fuel : Nat) (id : Int) (hfuel : 1 ≤ fuel) :
    (∀ cs us, st.fetchChildren id = .ok cs → st.updateMany cs fieldName value = .ok us →
      modifiedNestedNestedComments st fieldName value fuel id = true) ∧
    (st.fetchChildren id = .error () →
      modifiedNestedNestedComments st fieldName value fuel id = false) ∧
    (∀ cs, st.fetchChildren id = .ok cs → st.updateMany cs fieldName value = .error () →
      modifiedNestedNestedComments st fieldName value fuel id = false) := by
  obtain ⟨fuel, rfl⟩ : ∃ k, fuel = k + 1 :=
    ⟨fuel - 1, by omega⟩
  refine ⟨fun cs us hf hu => ?_, fun hf => ?_, fun cs hf hu => ?_⟩
  · simp only [mnc_succ, hf, hu]
    by_cases hcond : cs.length = us.length ∧ 0 < us.length
    · simp [if_pos hcond, List.length_map]
    · simp only [if_neg hcond]
  · simp only [mnc_succ, hf]
  · simp only [mnc_succ, hf, hu]

/-- C1 witness: the amended theorem evaluated on `c1OkStore`, where both
store calls for comment 1 succeed. -/
theorem c1_witness :
    modifiedNestedNestedComments c1OkStore "blockedThread" true 3 1 = true :=
  (c1_cascade_returns c1OkStore "blockedThread" true 3 1 (by omega)).1 [2, 3] [2, 3] rfl rfl

/-- C2 (confirmed): the cascading updater converts any store failure into
the boolean `false` — a throwing child fetch or a throwing batch update
yields `false` — and on a count mismatch it returns `true` already with
zero recursion budget, i.e. without recursing into any subtree and without
raising (the embedding is a total `Bool`-valued function: no exception can
propagate). -/
theorem c2_local_recovery (st : MncStore) (fieldName : String) (value : Bool) (id : Int) :
    (∀ fuel, 1 ≤ fuel → st.fetchChildren id = .error () →
      modifiedNestedNestedComments st fieldName value fuel id = false) ∧
    (∀ fuel cs, 1 ≤ fuel → st.fetchChildren id = .ok cs →
      st.updateMany cs fieldName value = .error () →
      modifiedNestedNestedComments st fieldName value fuel id = false) ∧
    (∀ cs us, st.fetchChildren id = .ok cs → st.updateMany cs fieldName value = .ok us →
      cs.length ≠ us.length →
      modifiedNestedNestedComments st fieldName value 1 id = true) := by
  refine ⟨fun fuel hfuel hf => ?_, fun fuel cs hfuel hf hu => ?_, fun cs us hf hu hne => ?_⟩
  · obtain ⟨fuel, rfl⟩ : ∃ k, fuel = k + 1 := ⟨fuel - 1, by omega⟩
    simp only [mnc_succ, hf]
  · obtain ⟨fuel, rfl⟩ : ∃ k, fuel = k + 1 := ⟨fuel - 1, by omega⟩
    simp only [mnc_succ, hf, hu]
  · show modifiedNestedNestedComments st fieldName value (0 + 1) id = true
    simp only [mnc_succ, hf, hu]
    exact if_neg (fun hcond => hne hcond.1)

/-- C2 witness: the three local-recovery branches evaluated on `c2Store`
(fetch of 1 throws; update under 3 throws; children of 2 mismatch two
fetched against one updated). -/
theorem c2_witness :
    modifiedNestedNestedComments c2Store "blocked" false 1 1 = false ∧
    modifiedNestedNestedComments c2Store "blocked" false 1 3 = false ∧
    modifiedNestedNestedComments c2Store "blocked" false 1 2 = true :=
  ⟨(c2_local_recovery c2Store "blocked" false 1).1 1 (by omega) rfl,
   (c2_local_recovery c2Store "blocked" false 3).2.1 1 [6] (by omega) rfl rfl,
   (c2_local_recovery c2Store "blocked" false 2).2.2 [4, 5] [4] rfl rfl (by decide)⟩

/-- C3 (corrected), counterexample to the claim as stated: decoding the
token `"article:abc"` does not keep `"abc"` as a string — `parseInt`
yields `NaN`, lodash `isNumber` accepts `NaN` as a number, and the decoded
record id is the numeric `NaN`. -/
theorem c3_counterexample :
    parseRelationString ["article"] "article:abc" = .ok ("article", RelId.nan) ∧
    RelId.nan ≠ RelId.str "abc" := by
  exact ⟨rfl, by decide⟩

/-- C3 (amended): decoding the token `"<collectionId>:<recordId>"` (for an
enabled collection, with no colon inside the record id part) returns the
collection id together with the coerced record id, which is a number
whenever the id part parses as an integer — and otherwise is the numeric
`NaN`, never the unchanged string: lodash `isNumber` is true of `NaN`, so
the string fallback branch of the source is unreachable. -/
theorem c3_relation_codec (enabled : List String) (uid sid : String)
    (henb : enabled.contains uid = true) (hns : ':' ∉ sid.data) :
    parseRelationString enabled (encodeRelation uid sid) = .ok (uid, coerceRelatedId sid) ∧
    (∀ n : Int, jsParseIntStr sid = .int n → coerceRelatedId sid = .num n) ∧
    (jsParseIntStr sid = .nan → coerceRelatedId sid = .nan) ∧
    (∀ s : String, coerceRelatedId sid ≠ .str s) := by
  refine ⟨?_, fun n h => ?_, fun h => ?_, fun s => ?_⟩
  · unfold parseRelationString
    rw [getRelatedGroups_encode uid sid hns]
    simp [henb]
    exact List.mem_of_elem_eq_true henb
  · simp [coerceRelatedId, h, lodashIsNumber]
  · simp [coerceRelatedId, h, lodashIsNumber]
  · cases h : jsParseIntStr sid <;> simp [coerceRelatedId, h, lodashIsNumber]

/-- C3 witness: the round-trip at the concrete input — encoding
`("article", "42")` and decoding yields the numeric id `42`. -/
theorem c3_witness :
    parseRelationString ["article"] (encodeRelation "article" "42") =
      .ok ("article", RelId.num 42) := by
  have h := c3_relation_codec ["article"] "article" "42" (by decide) (by decide)
  rw [h.1, h.2.1 42 (by decide)]

/-- C6 (confirmed): a sort string without a recognized `:asc`/`:desc`
suffix compiles to the same ordering as the string with `":asc"` appended,
and the dotted sort `"author.name:desc"` compiles to a nested ordering
assignment setting `author.name` to descending (shown together with the
plain-field example `"createdAt"`). -/
theorem c6_sort_normalization (s : String) (h : sortingTest s = false) :
    (∀ pre post, compileSort (pre ++ s :: post) = compileSort (pre ++ (s ++ ":asc") :: post)) ∧
    compileSort ["author.name:desc"] = [("author", OVal.node [("name", OVal.dir "desc")])] ∧
    compileSort ["createdAt"] = [("createdAt", OVal.dir "asc")] := by
  refine ⟨fun pre post => ?_, rfl, rfl⟩
  have hnorm : (if sortingTest s then s else s ++ ":asc") =
      (if sortingTest (s ++ ":asc") then s ++ ":asc" else (s ++ ":asc") ++ ":asc") := by
    rw [h, sortingTest_append_asc]
    simp
  simp only [compileSort, List.map_append, List.map_cons, hnorm]

/-- C6 witness: the normalization theorem evaluated at `"createdAt"`. -/
theorem c6_witness :
    sortingTest "createdAt" = false ∧
    compileSort ["createdAt"] = compileSort ["createdAt" ++ ":asc"] :=
  ⟨by decide, (c6_sort_normalization "createdAt" (by decide)).1 [] []⟩

/-- C4 (confirmed): for a pagination object, when a `page` or `pageSize`
key is present the store query uses `offset = (page - 1) * pageSize` and
`limit = pageSize` (defaults `page = 1`, `pageSize = 10`) and the response
meta is `{pagination: {page, pageSize}}`; otherwise the query uses
`offset = start` and `limit` directly (defaults `start = 0`, `limit = 10`)
and the meta is `{pagination: {start, limit}}`.  Every value is read
through lodash `parseInt`, so string values are coerced to integers.  (The
meta is stated without a `withCount` request; C5 covers the extension.) -/
theorem c4_pagination_modes (db : DB) (args : FindAllArgs) (rel : Option TaggedRecord)
    (pag : PagObj) (hpag : args.pagination = some pag) (hwc : wantsCount pag = false) :
    (((parsedPagValue pag "page").isSome || (parsedPagValue pag "pageSize").isSome) = true →
      (findAllQueryExt args).2 =
        some (jsMul (jsSub ((parsedPagValue pag "page").getD (.int 1)) (.int 1))
                ((parsedPagValue pag "pageSize").getD (.int 10)),
              (parsedPagValue pag "pageSize").getD (.int 10)) ∧
      (findAllFlat db args rel).meta =
        some { page := some ((parsedPagValue pag "page").getD (.int 1)),
               pageSize := some ((parsedPagValue pag "pageSize").getD (.int 10)) }) ∧
    (((parsedPagValue pag "page").isSome || (parsedPagValue pag "pageSize").isSome) = false →
      (findAllQueryExt args).2 =
        some ((parsedPagValue pag "start").getD (.int 0),
              (parsedPagValue pag "limit").getD (.int 10)) ∧
      (findAllFlat db args rel).meta =
        some { start := some ((parsedPagValue pag "start").getD (.int 0)),
               limit := some ((parsedPagValue pag "limit").getD (.int 10)) }) := by
  have hext : (findAllQueryExt args).2 = some (compilePagination pag).1 := by
    unfold findAllQueryExt
    rw [hpag]
    rfl
  have hmeta : (findAllFlat db args rel).meta = some (compilePagination pag).2 := by
    show findAllMeta db args = _
    unfold findAllMeta
    rw [hpag]
    simp [hwc]
  have hcp : compilePagination pag =
      ((if ((parsedPagValue pag "page").isSome || (parsedPagValue pag "pageSize").isSome)
        then jsMul (jsSub ((parsedPagValue pag "page").getD (.int 1)) (.int 1))
               ((parsedPagValue pag "pageSize").getD (.int 10))
        else (parsedPagValue pag "start").getD (.int 0),
        if ((parsedPagValue pag "page").isSome || (parsedPagValue pag "pageSize").isSome)
        then (parsedPagValue pag "pageSize").getD (.int 10)
        else (parsedPagValue pag "limit").getD (.int 10)),
       if ((parsedPagValue pag "page").isSome || (parsedPagValue pag "pageSize").isSome)
       then { page := some ((parsedPagValue pag "page").getD (.int 1)),
              pageSize := some ((parsedPagValue pag "pageSize").getD (.int 10)) }
       else { start := some ((parsedPagValue pag "start").getD (.int 0)),
              limit := some ((parsedPagValue pag "limit").getD (.int 10)) }) := by
    unfold compilePagination parsedPagValue
    simp only [lookup_map_parseInt]
  refine ⟨fun hmode => ⟨?_, ?_⟩, fun hmode => ⟨?_, ?_⟩⟩
  · rw [hext, hcp]; simp [hmode]
  · rw [hmeta, hcp]; simp [hmode]
  · rw [hext, hcp]; simp [hmode]
  · rw [hmeta, hcp]; simp [hmode]

/-- C4 witness: the theorem evaluated at the string-valued pagination
`{page: "2", pageSize: "5"}` — offset `(2-1)*5 = 5`, limit `5`, meta
`{page: 2, pageSize: 5}` with both values coerced to integers. -/
theorem c4_witness :
    (findAllQueryExt c4Args).2 = some (JsNum.int 5, JsNum.int 5) ∧
    (findAllFlat trivDB c4Args Option.none).meta =
      some { page := some (JsNum.int 2), pageSize := some (JsNum.int 5) } := by
  have h := (c4_pagination_modes trivDB c4Args Option.none c4Pag rfl rfl).1 (by decide)
  exact ⟨h.1.trans (by decide), h.2.trans (by decide)⟩

/-- C5 (confirmed): when `withCount` is requested (`true` or `"true"`) the
meta is extended by a count query executed with the same filter criteria
(`db.countComments args.query`, the criteria of the main fetch); in
page-based mode (a `page` key in the meta) with an integer page size
`s ≥ 1` the emitted `pageCount` is `⌊total / s⌋` plus one unless `total` is
an exact multiple of `s`, and outside page-based mode no `pageCount` is
emitted. -/
theorem c5_with_count (db : DB) (args : FindAllArgs) (rel : Option TaggedRecord)
    (pag : PagObj) (hpag : args.pagination = some pag) (hwc : wantsCount pag = true) :
    (findAllFlat db args rel).meta =
      some (applyWithCount (compilePagination pag).2 (db.countComments args.query)) ∧
    (applyWithCount (compilePagination pag).2 (db.countComments args.query)).total =
      some (.int (db.countComments args.query)) ∧
    (∀ s : Nat, 1 ≤ s →
      (compilePagination pag).2.pageSize = some (.int (s : Int)) →
      (compilePagination pag).2.page.isSome = true →
      (applyWithCount (compilePagination pag).2 (db.countComments args.query)).pageCount =
        some (.int ((db.countComments args.query / s : Nat) +
          (if db.countComments args.query % s = 0 then 0 else 1)))) ∧
    ((compilePagination pag).2.page = Option.none →
      (applyWithCount (compilePagination pag).2 (db.countComments args.query)).pageCount =
        Option.none) := by
  refine ⟨?_, rfl, fun s hs hps hpage => ?_, fun hpage => ?_⟩
  · show findAllMeta db args = _
    unfold findAllMeta
    rw [hpag]
    simp [hwc]
  · unfold applyWithCount
    rw [hps]
    simp only [Option.getD_some, hpage, if_pos]
    have hz : ((s : Int) = 0) = False := by
      simp
      omega
    have hfd : jsFloorDiv (.int (db.countComments args.query)) (.int (s : Int)) =
        .int ((db.countComments args.query / s : Nat) : Int) := by
      unfold jsFloorDiv
      simp only [hz, if_false]
      rw [Int.ofNat_fdiv]
    have hmod : jsMod (.int (db.countComments args.query)) (.int (s : Int)) =
        .int ((db.countComments args.query % s : Nat) : Int) := by
      unfold jsMod
      simp only [hz, if_false]
      rw [Int.ofNat_tmod]
    rw [hfd, hmod]
    by_cases hdvd : db.countComments args.query % s = 0
    · have hc : ((db.countComments args.query % s : Nat) : Int) = 0 := by
        rw [hdvd]
        rfl
      rw [if_pos (congrArg JsNum.int hc), if_pos hdvd]
      simp
    · have hc : ¬ (JsNum.int ((db.countComments args.query % s : Nat) : Int) = JsNum.int 0) := by
        intro h
        exact hdvd (by exact_mod_cast JsNum.int.inj h)
      rw [if_neg hc, if_neg hdvd]
      rfl
  · unfold applyWithCount
    simp [hpage]

/-- C5 witness: the theorem evaluated at `{pageSize: "5", withCount:
"true"}` against stores counting 11 and 10 records — `pageCount` 3 and 2
respectively, with `total` in the meta. -/
theorem c5_witness :
    (findAllFlat c5DB c5Args Option.none).meta =
      some { page := some (JsNum.int 1), pageSize := some (JsNum.int 5),
             pageCount := some (JsNum.int 3), total := some (JsNum.int 11) } ∧
    (applyWithCount (compilePagination c5Pag).2 (c5DB10.countComments c5Args.query)).pageCount =
      some (JsNum.int 2) := by
  have h1 := c5_with_count c5DB c5Args Option.none c5Pag rfl rfl
  have h2 := c5_with_count c5DB10 c5Args Option.none c5Pag rfl rfl
  exact ⟨h1.1.trans (by decide),
         (h2.2.2.1 5 (by omega) (by decide) (by decide)).trans (by decide)⟩

/-- C7 (confirmed): `checkBadWords` fails — with a 400 error carrying the
original and the cleaned text — exactly when the bad-words configuration is
truthy, the content is present and non-empty, and the filter reports it
profane; in every other case it returns the content unchanged, so a second
call on the returned (clean) text returns the same text again and never
raises. -/
theorem c7_check_bad_words (mkFilter : Option FilterCfg → BadWordsFilter)
    (config : BWConfig) (content : Option String) :
    ((∃ e, checkBadWords mkFilter config content = .error e) ↔
      (bwTruthy config = true ∧ ∃ s, content = some s ∧ s ≠ "" ∧
        (mkFilter (bwCfgObj config)).isProfane s = true)) ∧
    (∀ e, checkBadWords mkFilter config content = .error e →
      e.status = 400 ∧ e.original = content ∧
      e.filtered = content.map (mkFilter (bwCfgObj config)).clean) ∧
    (∀ t, checkBadWords mkFilter config content = .ok t →
      t = content ∧ checkBadWords mkFilter config t = .ok t) := by
  by_cases hcfg : bwTruthy config = true
  · cases content with
    | none =>
      refine ⟨⟨fun ⟨e, he⟩ => ?_, fun ⟨_, s, hs, _⟩ => by cases hs⟩,
              fun e he => ?_, fun t ht => ?_⟩
      · rw [show checkBadWords mkFilter config Option.none = .ok Option.none by
          simp [checkBadWords, hcfg]] at he
        cases he
      · rw [show checkBadWords mkFilter config Option.none = .ok Option.none by
          simp [checkBadWords, hcfg]] at he
        cases he
      · rw [show checkBadWords mkFilter config Option.none = .ok Option.none by
          simp [checkBadWords, hcfg]] at ht
        cases ht
        exact ⟨rfl, by simp [checkBadWords, hcfg]⟩
    | some s =>
      by_cases hprof : (decide (s ≠ "") && (mkFilter (bwCfgObj config)).isProfane s) = true
      · have hrun : checkBadWords mkFilter config (some s) =
            .error { status := 400,
                     message := "Bad language used! Please polite your comment...",
                     original := some s,
                     filtered := some ((mkFilter (bwCfgObj config)).clean s) } := by
          simp only [checkBadWords, hcfg, if_true]
          rw [if_pos hprof]
        have hparts := Bool.and_eq_true_iff.mp hprof
        refine ⟨⟨fun _ => ⟨hcfg, s, rfl, of_decide_eq_true hparts.1, hparts.2⟩, fun _ => ?_⟩,
                fun e he => ?_, fun t ht => ?_⟩
        · exact ⟨_, hrun⟩
        · rw [hrun] at he
          cases he
          exact ⟨rfl, rfl, rfl⟩
        · rw [hrun] at ht
          cases ht
      · have hrun : checkBadWords mkFilter config (some s) = .ok (some s) := by
          simp only [checkBadWords, hcfg, if_true]
          rw [if_neg (fun h => hprof h)]
        refine ⟨⟨fun ⟨e, he⟩ => ?_, fun ⟨_, s', hs', hne, hp⟩ => ?_⟩,
                fun e he => ?_, fun t ht => ?_⟩
        · rw [hrun] at he
          cases he
        · cases hs'
          exact absurd (Bool.and_eq_true_iff.mpr ⟨decide_eq_true hne, hp⟩) hprof
        · rw [hrun] at he
          cases he
        · rw [hrun] at ht
          cases ht
          exact ⟨rfl, hrun⟩
  · have hrun : checkBadWords mkFilter config content = .ok content := by
      simp [checkBadWords, hcfg]
    refine ⟨⟨fun ⟨e, he⟩ => ?_, fun ⟨hc, _⟩ => absurd hc hcfg⟩, fun e he => ?_, fun t ht => ?_⟩
    · rw [hrun] at he
      cases he
    · rw [hrun] at he
      cases he
    · rw [hrun] at ht
      cases ht
      exact ⟨rfl, hrun⟩

/-- C7 witness: the theorem evaluated on a concrete filter and the clean
content `"hello"` — it is returned unchanged and a repeated call returns it
unchanged again. -/
theorem c7_witness :
    (some "hello" : Option String) = some "hello" ∧
    checkBadWords c7Mk (.bool true) (some "hello") = .ok (some "hello") :=
  (c7_check_bad_words c7Mk (.bool true) (some "hello")).2.2 (some "hello") rfl

/-- C8 (confirmed): `findOne` raises a 404 error exactly when the store's
single-record lookup yields no record; a found record is returned
sanitized with its already-resolved reports removed (every report left in
the result is unresolved). -/
theorem c8_find_one (db : DB) (criteria : Query) :
    ((∃ e, findOne db criteria = .error e ∧ e.status = 404) ↔
      db.findOneComment criteria = Option.none) ∧
    (∀ c, db.findOneComment criteria = some c →
      findOne db criteria = .ok (filterOurResolvedReports (sanitizeCommentEntity c)) ∧
      ∀ r ∈ (filterOurResolvedReports (sanitizeCommentEntity c)).reports,
        r.resolved = false) := by
  cases h : db.findOneComment criteria with
  | none =>
    refine ⟨⟨fun _ => rfl, fun _ => ?_⟩, fun c hc => ?_⟩
    · exact ⟨_, by unfold findOne; rw [h], rfl⟩
    · cases hc
  | some c =>
    have hrun : findOne db criteria = .ok (filterOurResolvedReports (sanitizeCommentEntity c)) := by
      unfold findOne
      rw [h]
    refine ⟨⟨fun ⟨e, he, _⟩ => ?_, fun he => ?_⟩, fun c' hc' => ?_⟩
    · rw [hrun] at he
      cases he
    · cases he
    · cases hc'
      refine ⟨hrun, fun r hr => ?_⟩
      have := (List.mem_filter.mp hr).2
      simpa using this

/-- C8 witness: the theorem evaluated on an empty store (404 with status
404) and on a store finding `c8Entity` (sanitized result with resolved
reports removed). -/
theorem c8_witness :
    (∃ e, findOne trivDB { tag := "missing" } = .error e ∧ e.status = 404) ∧
    findOne c8DB {} = .ok (filterOurResolvedReports (sanitizeCommentEntity c8Entity)) :=
  ⟨(c8_find_one trivDB { tag := "missing" }).1.mpr rfl,
   ((c8_find_one c8DB {}).2 c8Entity rfl).1⟩

/-- C9 (confirmed): on an acyclic flat list (witnessed by a rank function
under which every comment ranks strictly above its parent and at most the
list length), the forest built by `buildNestedStructure` satisfies the
recursive characterization: the nodes under parent id `pid` are exactly the
entries whose `threadOf` equals `pid` — minus, when `dropBlockedThreads` is
set, the entries whose `blockedThread` flag is true, together with their
entire subtrees — each carrying the recursively built forest of its own id
as children.  On the concrete list `[{id 1}, {id 2, threadOf 1, blocked
thread}, {id 3, threadOf 2}]` with `dropBlockedThreads`, the result is root
1 with zero children.  `findAllInHierarchy` is this builder applied to the
flat `findAllFlat` data. -/
theorem c9_hierarchy (entities : List CommentOut) (pid : Option Int) (drop : Bool)
    (rk : Option Int → Nat)
    (hP : ∀ c ∈ entities, rk (outThreadOf c) < rk (some (outId c)))
    (hB : ∀ c ∈ entities, rk (some (outId c)) ≤ entities.length) :
    buildNestedStructure entities pid drop =
      (entities.filter (fun c =>
          outThreadOf c == pid && !(drop && outBlockedThread c))).map
        (fun c => CommentTree.node c (buildNestedStructure entities (some (outId c)) drop)) ∧
    buildNestedStructure c9Entities Option.none true =
      [CommentTree.node (CommentOut.raw { id := 1 }) []] ∧
    (∀ (db : DB) (q : Query) (pop : Populate) (sort : SortInput)
        (sid : Option Int) (rel : Option TaggedRecord),
      findAllInHierarchy db q pop sort sid drop rel =
        buildNestedStructure
          (findAllFlat db
            { query := q, populate := pop, sort := sort, pagination := Option.none }
            rel).data
          sid drop) := by
  refine ⟨?_, rfl, fun db q pop sort sid rel => rfl⟩
  unfold buildNestedStructure
  rw [buildNestedLevel_succ]
  apply List.map_congr_left
  intro c hc
  have hcmem : c ∈ entities := (List.mem_filter.mp hc).1
  have hthread : outThreadOf c = pid :=
    eq_of_beq (Bool.and_eq_true_iff.mp (List.mem_filter.mp hc).2).1
  have hrk := hP c hcmem
  rw [hthread] at hrk
  have hbd := hB c hcmem
  congr 1
  exact buildNestedLevel_stable entities drop rk hP hB
    (entities.length - rk (some (outId c))) (some (outId c)) entities.length
    (entities.length + 1) (by omega) (by omega) (by omega)

/-- C9 witness: the theorem evaluated on the example list with an explicit
rank function. -/
theorem c9_witness :
    buildNestedStructure c9Entities Option.none true =
      [CommentTree.node (CommentOut.raw { id := 1 }) []] :=
  (c9_hierarchy c9Entities Option.none true c9Rank (by decide) (by decide)).2.1

/-- C10 (confirmed): whenever the merge step of `findAllFlat` runs (the
related-entity list — a supplied entity or the fetched batch — is
nonempty), every data entry is the merged form of the corresponding
annotated comment, and a comment whose token matches no record's
`"<uid>:<id>"` string gets `related = undefined` (the merged shape carries
no token field, so the original token string is lost); a supplied
`relatedEntity` makes that list the singleton `[r]`, so this applies to it
as well. -/
theorem c10_merge_undefined (db : DB) (args : FindAllArgs) (rel : Option TaggedRecord) :
    (relatedFor db (rawEntries db args) rel ≠ [] →
      (findAllFlat db args rel).data =
        (annotatedEntries db args).map (fun c =>
          CommentOut.merged
            (mergeRelatedEntityTo c (relatedFor db (rawEntries db args) rel)))) ∧
    (∀ (c : Comment) (rels : List TaggedRecord),
      (∀ r ∈ rels, c.related ≠ relTokenOf r) →
      (mergeRelatedEntityTo c rels).related = Option.none) ∧
    (∀ r, rel = some r → relatedFor db (rawEntries db args) rel = [r]) := by
  refine ⟨fun hne => ?_, fun c rels hnom => ?_, fun r hr => by rw [hr]; rfl⟩
  · show (if 0 < (relatedFor db (rawEntries db args) rel).length then _ else _) = _
    rw [if_pos (List.length_pos.mpr hne)]
  · show List.find? _ rels = Option.none
    rw [List.find?_eq_none]
    intro r hr
    simp only [beq_iff_eq]
    exact hnom r hr

/-- C10 witness: the theorem evaluated with a supplied related entity whose
token `"article:2"` does not match the comment token `"article:1"` — the
data entry is merged and its `related` is `undefined`. -/
theorem c10_witness :
    (findAllFlat c10DB {} (some c10Rel)).data =
      (annotatedEntries c10DB {}).map (fun c =>
        CommentOut.merged (mergeRelatedEntityTo c [c10Rel])) ∧
    (mergeRelatedEntityTo c10Comment [c10Rel]).related = Option.none := by
  have h := c10_merge_undefined c10DB {} (some c10Rel)
  have h3 : relatedFor c10DB (rawEntries c10DB {}) (some c10Rel) = [c10Rel] :=
    h.2.2 c10Rel rfl
  refine ⟨?_, h.2.1 c10Comment [c10Rel] (by decide)⟩
  have h1 := h.1 (by rw [h3]; simp)
  rw [h1, h3]

end StrapiComments
